import Mathlib

/-!
Verification of the neo-blockchain stack virtual machine.

The definitions below are a shallow embedding of the VM packages
(`neo-blockchain-vm/src/opcodes.js`, `neo-blockchain-vm/src/syscalls.js`,
`neo-blockchain-vm/src/constants.js`, `neo-blockchain-core/src/Account.js`,
and the `common` module).  Machine bytes are modelled as `Nat` (each < 256),
byte strings as `List Nat`, arbitrary-precision integers as `Int`, and
fallible operations return `Except VMError`.  Parts of the repository whose
sources are not included (the stack-item class hierarchy, `vmUtils`, the
crypto surface and the engine loop) are modelled from the specification and
are marked as such in their doc comments.
-/

namespace NeoVM

/-- Byte strings (JavaScript `Buffer`s), little-endian where it matters. -/
abbrev Bytes := List Nat

/-- Fault kinds raised by the VM, mirroring `neo-blockchain-vm/src/errors`
plus the JavaScript runtime errors (`typeError` for a method call on
`undefined`, `rangeError` for a `Buffer` read outside its bounds) and a
`cloneDepthExceeded` marker for exhausted clone recursion in the heap model. -/
inductive VMError where
  | unknownOp
  | codeOverflow
  | pushOnlyViolation
  | stackUnderflow
  | rangeError
  | invalidType
  | typeError
  | numberTooLarge
  | invalidCheckMultisigArguments
  | invalidPackCount
  | invalidPickItemIndex
  | invalidSetItemIndex
  | keyNotFound
  | tooManyVotes
  | accountFrozen
  | notEligibleVote
  | badWitnessCheck
  | contractNoStorage
  | invalidContractGetStorageContext
  | invalidContractParameterType
  | invalidFormat
  | cloneDepthExceeded
  deriving DecidableEq, Repr

/-- Fallible VM computations. -/
abbrev VM (α : Type) := Except VMError α

@[simp]
theorem vm_bind_ok {α β : Type} (a : α) (f : α → VM β) :
    (Except.ok a : VM α) >>= f = f a := rfl

@[simp]
theorem vm_bind_error {α β : Type} (e : VMError) (f : α → VM β) :
    (Except.error e : VM α) >>= f = .error e := rfl

@[simp]
theorem vm_map_ok {α β : Type} (a : α) (f : α → β) :
    f <$> (Except.ok a : VM α) = .ok (f a) := rfl

@[simp]
theorem vm_map_error {α β : Type} (e : VMError) (f : α → β) :
    f <$> (Except.error e : VM α) = .error e := rfl

@[simp]
theorem vm_throw (α : Type) (e : VMError) :
    (throw e : VM α) = .error e := rfl

@[simp]
theorem vm_pure {α : Type} (a : α) : (pure a : VM α) = .ok a := rfl

/-- Account state (`neo-blockchain-core/src/Account.js`): script hash,
frozen flag, votes (EC points) and per-asset balances (`BN` values keyed by
the asset hash). -/
structure Account where
  hash : Bytes
  isFrozen : Bool
  votes : List Bytes
  balances : List (Bytes × Int)
  deriving DecidableEq, Repr

/-- Contract state with the nine fields produced by `createContract`
(`syscalls.js` lines 202-243). -/
structure Contract where
  script : Bytes
  parameterList : List Nat
  returnType : Nat
  hasStorage : Bool
  name : Bytes
  codeVersion : Bytes
  author : Bytes
  email : Bytes
  description : Bytes
  hash : Bytes
  deriving DecidableEq, Repr

/-- Stack items.  Modelled from the spec (the stack-item class files other
than `InputStackItem.js` are not under `src/`): a tagged union of
`Integer`, `Boolean`, `Buffer`, `Array`, `Struct` and the opaque object
wrappers used by the claims (`ECPoint`, `UInt160`, `UInt256`,
`StorageContext`, `Account`, `Contract`).  This is the value-level model;
the aliasing-aware heap model used for `SETITEM` appears further below. -/
inductive StackItem where
  | integer (n : Int)
  | boolean (b : Bool)
  | buffer (bs : Bytes)
  | array (items : List StackItem)
  | struct (items : List StackItem)
  | ecPoint (bs : Bytes)
  | uint160 (bs : Bytes)
  | uint256 (bs : Bytes)
  | storageContext (hash : Bytes)
  | accountItem (a : Account)
  | contractItem (c : Contract)
  deriving Repr

/-- Unsigned little-endian byte decoding. -/
def bytesToNat : Bytes → Nat
  | [] => 0
  | b :: rest => b % 256 + 256 * bytesToNat rest

/-- Little-endian two's-complement decoding; the sign bit is the most
significant bit of the last byte; the empty buffer decodes to 0.  Modelled
from the spec (§3, Numeric semantics). -/
def bytesToInt (bs : Bytes) : Int :=
  match bs.getLast? with
  | none => 0
  | some last =>
    if 128 ≤ last % 256 then (bytesToNat bs : Int) - 2 ^ (8 * bs.length)
    else (bytesToNat bs : Int)

/-- Minimal little-endian digits of a natural number. -/
def natToBytesLE : Nat → Bytes
  | 0 => []
  | n + 1 => (n + 1) % 256 :: natToBytesLE ((n + 1) / 256)
decreasing_by exact Nat.div_lt_self (Nat.succ_pos n) (by omega)

/-- Fixed-width little-endian digits. -/
def natToBytesLEPad (n width : Nat) : Bytes :=
  (List.range width).map (fun i => n / 256 ^ i % 256)

/-- Minimal little-endian two's-complement encoding of an integer; inverse
direction of `bytesToInt`.  Modelled from the spec (§3, Numeric
semantics). -/
def intToBytesLE (n : Int) : Bytes :=
  if n = 0 then []
  else if 0 < n then
    let bs := natToBytesLE n.toNat
    if 128 ≤ bs.getLastD 0 then bs ++ [0] else bs
  else
    let m := (-n).toNat
    let k := max 1 (natToBytesLE (m - 1)).length
    let k := if m ≤ 2 ^ (8 * k - 1) then k else k + 1
    natToBytesLEPad (2 ^ (8 * k) - m) k

/-- Coercion to a big integer.  Modelled from the spec: total for
Integer/Boolean/Buffer, a typed `InvalidTypeError` otherwise. -/
def StackItem.asBigInteger : StackItem → VM Int
  | .integer n => pure n
  | .boolean b => pure (if b then 1 else 0)
  | .buffer bs => pure (bytesToInt bs)
  | _ => .error .invalidType

/-- Coercion to a Boolean.  Modelled from the spec: a Boolean is itself, a
Buffer is true iff it has a non-zero byte, an Integer is true iff non-zero;
object wrappers and collections are non-null, hence true. -/
def StackItem.asBoolean : StackItem → Bool
  | .integer n => n != 0
  | .boolean b => b
  | .buffer bs => bs.any (fun b => b % 256 != 0)
  | _ => true

/-- Coercion to a byte string.  Modelled from the spec: Integer uses the
little-endian two's-complement encoding, Boolean is `0x01`/empty, Buffer and
the fixed-width wrappers yield their bytes, collections fail. -/
def StackItem.asBuffer : StackItem → VM Bytes
  | .integer n => pure (intToBytesLE n)
  | .boolean b => pure (if b then [1] else [])
  | .buffer bs => pure bs
  | .ecPoint bs => pure bs
  | .uint160 bs => pure bs
  | .uint256 bs => pure bs
  | _ => .error .invalidType

/-- Coercion to the element list of an Array or Struct. -/
def StackItem.asArray : StackItem → VM (List StackItem)
  | .array items => pure items
  | .struct items => pure items
  | _ => .error .invalidType

/-- `isArray` in the source is true for `ArrayStackItem` and its subclass
`StructStackItem`. -/
def StackItem.isArray : StackItem → Bool
  | .array _ => true
  | .struct _ => true
  | _ => false

/-- Coercion to a string (UTF-8 bytes). -/
def StackItem.asString : StackItem → VM Bytes
  | .buffer bs => pure bs
  | _ => .error .invalidType

/-- Coercion to an EC point (33-byte compressed encoding or infinity). -/
def StackItem.asECPoint : StackItem → VM Bytes
  | .ecPoint bs => pure bs
  | _ => .error .invalidType

/-- Coercion to a `UInt256`. -/
def StackItem.asUInt256 : StackItem → VM Bytes
  | .uint256 bs => pure bs
  | _ => .error .invalidType

/-- Coercion to a `UInt160`. -/
def StackItem.asUInt160 : StackItem → VM Bytes
  | .uint160 bs => pure bs
  | _ => .error .invalidType

/-- Coercion to an account. -/
def StackItem.asAccount : StackItem → VM Account
  | .accountItem a => pure a
  | _ => .error .invalidType

/-- Coercion to a contract. -/
def StackItem.asContract : StackItem → VM Contract
  | .contractItem c => pure c
  | _ => .error .invalidType

/-- JavaScript array indexing: reading past the end yields `undefined`, and
the method call the source immediately performs on the result then throws a
`TypeError`. -/
def jsGet (args : List StackItem) (i : Nat) : VM StackItem :=
  match args.get? i with
  | some v => pure v
  | none => .error .typeError

/-- Constants from `neo-blockchain-vm/src/constants.js`. -/
def MAX_STACK_SIZE : Nat := 2 * 1024

def MAX_INVOCATION_STACK_SIZE : Nat := 1024

def MAX_ARRAY_SIZE : Nat := 1024

def MAX_ITEM_SIZE : Nat := 1024 * 1024

def MAX_SCRIPT_LENGTH : Nat := 1024 * 1024

def MAX_VOTES : Nat := 1024

def BLOCK_HEIGHT_YEAR : Nat := 2000000

/-- Modelled from the spec: `vmUtils.toNumber` (source not under `src/`)
converts a big integer to a JavaScript number and fails when the magnitude
exceeds the maximum size bound (spec §4.1: "fails if it exceeds
±MAX_SIZE"); the largest declared size constant, `MAX_ITEM_SIZE`, is used
as the bound. -/
def toNumber (n : Int) : VM Int :=
  if n.natAbs ≤ MAX_ITEM_SIZE then pure n else .error .numberTooLarge

/-- Modelled from the spec (§2 C3 and §4.3 step 6, the engine source is not
under `src/`): the dispatcher pops `inCount` items from the top of the
stack (index 0 is the top, so `args[0]` is the topmost item), runs the
invoke function, and pushes the results one by one in list order, so the
last result ends up on top of the stack. -/
def execOp (inCount : Nat) (invoke : List StackItem → VM (List StackItem))
    (stack : List StackItem) : VM (List StackItem) := do
  if stack.length < inCount then throw .stackUnderflow
  let results ← invoke (stack.take inCount)
  pure (results.reverse ++ stack.drop inCount)

/-- CHECKSIG invoke (`opcodes.js` lines 1002-1024): `args[0]` is the public
key, `args[1]` the signature; `crypto.verify` is the external crypto
primitive (modelled from the spec as a Boolean verdict for the container's
message, already fixed inside `verify`, with `none` standing for a thrown
verification error) and a thrown error is caught and becomes `false`. -/
def CHECKSIGinvoke (verify : Bytes → Bytes → Option Bool)
    (args : List StackItem) : VM (List StackItem) := do
  let publicKey ← (← jsGet args 0).asBuffer
  let signature ← (← jsGet args 1).asBuffer
  let result := match verify signature publicKey with
    | some b => b
    | none => false
  pure [.boolean result]

/-- The CHECKMULTISIG verification loop (`opcodes.js` lines 1081-1101),
with the loop over `j < n` rendered as structural recursion over the
remaining public keys (`restKeys = publicKeys.drop j`,
`n = publicKeys.length`): while `result && i < m && j < n`, verify
`signatures[i]` against `publicKeys[j]`; on success advance `i`; always
advance `j`; if more signatures than keys remain, clear `result`.  A thrown
`verify` error (`none`) is caught by the surrounding try/catch and yields
`false`. -/
def multisigLoop (verify : Bytes → Bytes → Option Bool)
    (signatures : List Bytes) (n : Nat) :
    List Bytes → Nat → Nat → Bool → Bool
  | [], _, _, result => result
  | pk :: restKeys, i, j, result =>
    if result ∧ i < signatures.length then
      match verify (signatures.getD i []) pk with
      | none => false
      | some currentResult =>
        let i' := if currentResult then i + 1 else i
        let result' :=
          if signatures.length - i' > n - (j + 1) then false else result
        multisigLoop verify signatures n restKeys i' (j + 1) result'
    else result

/-- CHECKMULTISIG invoke (`opcodes.js` lines 1054-1109): the key group is
either an Array item or `count` individual items, likewise the signature
group; empty groups or more signatures than keys fault.  On the
counted-keys path the decoder has already rejected `count ≤ 0`, so
`args.slice(1, 1 + count)` is rendered with `take count.toNat`. -/
def CHECKMULTISIGinvoke (verify : Bytes → Bytes → Option Bool)
    (args : List StackItem) : VM (List StackItem) := do
  let a0 ← jsGet args 0
  let (index, publicKeys) ←
    if a0.isArray then do
      let pks ← (← a0.asArray).mapM StackItem.asBuffer
      pure (1, pks)
    else do
      let count ← toNumber (← a0.asBigInteger)
      let pks ← ((args.drop 1).take count.toNat).mapM StackItem.asBuffer
      pure (1 + count.toNat, pks)
  let ai ← jsGet args index
  let signatures ←
    if ai.isArray then do
      (← ai.asArray).mapM StackItem.asBuffer
    else
      (args.drop (index + 1)).mapM StackItem.asBuffer
  if publicKeys.length = 0 ∨ signatures.length = 0 ∨
      signatures.length > publicKeys.length then
    throw .invalidCheckMultisigArguments
  pure [.boolean
    (multisigLoop verify signatures publicKeys.length publicKeys 0 0 true)]

/-- CHECKMULTISIG arity decoding (`opcodes.js` lines 1025-1048): inspect
the top of the stack for the key group, then the item after it for the
signature group; a non-positive key count or negative signature count
faults. -/
def multisigIn (stack : List StackItem) : VM Nat := do
  let in1 ←
    match stack.get? 0 with
    | none => pure 1
    | some top =>
      if top.isArray then pure 1
      else do
        let count ← toNumber (← top.asBigInteger)
        if count ≤ 0 then throw .invalidCheckMultisigArguments
        pure (1 + count.toNat)
  match stack.get? in1 with
  | none => pure (in1 + 1)
  | some next =>
    if next.isArray then pure (in1 + 1)
    else do
      let count ← toNumber (← next.asBigInteger)
      if count < 0 then throw .invalidCheckMultisigArguments
      pure (in1 + 1 + count.toNat)

/-- One CHECKSIG step on a stack (descriptor `in: 2, out: 1`). -/
def execCHECKSIG (verify : Bytes → Bytes → Option Bool)
    (stack : List StackItem) : VM (List StackItem) :=
  execOp 2 (CHECKSIGinvoke verify) stack

/-- One CHECKMULTISIG step on a stack: dynamic arity decoding followed by
the invoke. -/
def execCHECKMULTISIG (verify : Bytes → Bytes → Option Bool)
    (stack : List StackItem) : VM (List StackItem) := do
  let inCount ← multisigIn stack
  execOp inCount (CHECKMULTISIGinvoke verify) stack

/-- C1: for every public key, signature and script-container message (the
message is fixed inside `verify`), CHECKSIG on a stack holding the
signature and the public key computes the same result — stack effect
included — as CHECKMULTISIG with the single-element Array groups `[pk]` and
`[sig]`; and the shared result is the Boolean that is true exactly when
`verify` succeeds, so both opcodes push false whenever the signature is not
a valid signature of the message under the key. -/
theorem checksig_agrees_with_single_checkmultisig
    (verify : Bytes → Bytes → Option Bool) (pk sig : Bytes)
    (rest : List StackItem) :
    execCHECKMULTISIG verify
        (.array [.buffer pk] :: .array [.buffer sig] :: rest)
      = execCHECKSIG verify (.buffer pk :: .buffer sig :: rest)
    ∧ execCHECKSIG verify (.buffer pk :: .buffer sig :: rest)
      = .ok (.boolean (verify sig pk == some true) :: rest) := by
  have h2 : ¬ (rest.length + 1 + 1 < 2) := by omega
  have hms : multisigIn (StackItem.array [.buffer pk] ::
      StackItem.array [.buffer sig] :: rest) = pure 2 := by
    simp [multisigIn, StackItem.isArray]
  have hmapPk : List.mapM.loop StackItem.asBuffer [StackItem.buffer pk] []
      = (pure [pk] : VM (List Bytes)) := rfl
  have hmapSig : List.mapM.loop StackItem.asBuffer [StackItem.buffer sig] []
      = (pure [sig] : VM (List Bytes)) := rfl
  have hloop : multisigLoop verify [sig] 1 [pk] 0 0 true
      = (verify sig pk == some true) := by
    cases hv : verify sig pk with
    | none => simp [multisigLoop, hv]
    | some b => cases b <;> simp [multisigLoop, hv]
  have hcs : execCHECKSIG verify (.buffer pk :: .buffer sig :: rest)
      = .ok (.boolean (verify sig pk == some true) :: rest) := by
    cases hv : verify sig pk with
    | none =>
      simp [execCHECKSIG, execOp, h2, CHECKSIGinvoke, jsGet,
        StackItem.asBuffer, hv]
    | some b =>
      cases b <;>
      · simp [execCHECKSIG, execOp, h2, CHECKSIGinvoke, jsGet,
          StackItem.asBuffer, hv]
  have hcms : execCHECKMULTISIG verify
      (.array [.buffer pk] :: .array [.buffer sig] :: rest)
      = .ok (.boolean (verify sig pk == some true) :: rest) := by
    simp only [execCHECKMULTISIG, hms, pure_bind]
    simp [execOp, h2, CHECKMULTISIGinvoke, jsGet, StackItem.isArray,
      StackItem.asArray, hmapPk, hmapSig, hloop]
  exact ⟨hcms.trans hcs.symm, hcs⟩

/-- PACK arity decoding (`opcodes.js` lines 1127-1139): the count is read
from the top of the stack, `in = 1 + count`, and a negative `in` faults. -/
def PACKin (stack : List StackItem) : VM Nat := do
  match stack.get? 0 with
  | none => pure 1
  | some top => do
    let count ← toNumber (← top.asBigInteger)
    let in_ : Int := 1 + count
    if in_ < 0 then throw .invalidPackCount
    pure in_.toNat

/-- PACK invoke (`opcodes.js` lines 1141-1151): the popped items after the
count become the elements of a new Array. -/
def PACKinvoke (args : List StackItem) : VM (List StackItem) :=
  pure [.array (args.drop 1)]

/-- One PACK step on a stack. -/
def execPACK (stack : List StackItem) : VM (List StackItem) := do
  let inCount ← PACKin stack
  execOp inCount PACKinvoke stack

/-- UNPACK out decoding (`opcodes.js` lines 1153-1161):
`out = 1 + top.asArray().length`, which faults when the top item is not an
Array. -/
def UNPACKout (stack : List StackItem) : VM Nat := do
  match stack.get? 0 with
  | none => pure 1
  | some top => pure (1 + (← top.asArray).length)

/-- UNPACK invoke (`opcodes.js` lines 1163-1179): push the elements in
reverse order, then the length. -/
def UNPACKinvoke (args : List StackItem) : VM (List StackItem) := do
  let arr ← (← jsGet args 0).asArray
  pure (arr.reverse ++ [.integer arr.length])

/-- One UNPACK step on a stack: the decode step (which can fault on a
non-Array top item) followed by the invoke with `in = 1`. -/
def execUNPACK (stack : List StackItem) : VM (List StackItem) := do
  let _ ← UNPACKout stack
  execOp 1 UNPACKinvoke stack

/-- C7: PACK/UNPACK round-trip.  With the integer count `n = items.length`
on top of the items, PACK yields the Array of those items in stack order,
and UNPACK on that Array restores exactly the original stack: the items in
their original order with the integer `n` back on top.  The count bound
comes from the spec's `toNumber` conversion. -/
theorem pack_unpack_roundtrip (items rest : List StackItem)
    (hn : items.length ≤ MAX_ITEM_SIZE) :
    execPACK (.integer items.length :: (items ++ rest))
        = .ok (.array items :: rest)
    ∧ execUNPACK (.array items :: rest)
        = .ok (.integer items.length :: (items ++ rest)) := by
  constructor
  · have hn' : items.length ≤ 1048576 := by
      simpa [MAX_ITEM_SIZE] using hn
    have hnum : toNumber (items.length : Int) = pure (items.length : Int) := by
      simp [toNumber, MAX_ITEM_SIZE, hn']
    have h3 : ((1 : Int) + (items.length : Int)).toNat = 1 + items.length := by
      omega
    have h4 : ¬ ((1 : Int) + (items.length : Int) < 0) := by omega
    have hin : PACKin (.integer items.length :: (items ++ rest))
        = pure (1 + items.length) := by
      simp [PACKin, StackItem.asBigInteger, hnum, h3, h4]
    have hguard : ¬ (items.length + rest.length + 1 < 1 + items.length) := by
      omega
    have htake : (StackItem.integer items.length ::
        (items ++ rest)).take (1 + items.length)
        = .integer items.length :: items := by
      rw [Nat.add_comm]
      simp [List.take_left]
    have hdrop : (StackItem.integer items.length ::
        (items ++ rest)).drop (1 + items.length) = rest := by
      rw [Nat.add_comm]
      simp [List.drop_left]
    simp [execPACK, hin, execOp, hguard, htake, hdrop, PACKinvoke]
  · have hout : UNPACKout (.array items :: rest)
        = pure (1 + items.length) := by
      simp [UNPACKout, StackItem.asArray]
    simp [execUNPACK, hout, execOp, UNPACKinvoke, jsGet, StackItem.asArray]

/-- Witness for C7 at a concrete three-item stack. -/
theorem pack_unpack_roundtrip_witness :
    execPACK (.integer 2 :: ([.boolean true, .buffer [7]] ++ [.integer 9]))
        = .ok (.array [.boolean true, .buffer [7]] :: [.integer 9])
    ∧ execUNPACK (.array [.boolean true, .buffer [7]] :: [.integer 9])
        = .ok (.integer 2 :: ([.boolean true, .buffer [7]] ++ [.integer 9])) :=
  pack_unpack_roundtrip [.boolean true, .buffer [7]] [.integer 9]
    (by decide)

/-- The execution-context record (`constants.js` lines 46-75), minus the
`blockchain`, `init` and `engine` handles, which are passed separately
where needed.  `witnessHashes` carries the script container's witness-hash
set (`getScriptHashesForVerifying` is external; modelled from the spec),
and `createdContracts` is an association list keyed by the contract hash
(the source keys by the equivalent `hashHex`). -/
structure ExecutionContext where
  code : Bytes
  pushOnly : Bool
  scriptHash : Bytes
  callingScriptHash : Option Bytes
  entryScriptHash : Bytes
  pc : Nat
  depth : Nat
  stack : List StackItem
  stackAlt : List StackItem
  done : Bool
  gasLeft : Int
  actionIndex : Nat
  createdContracts : List (Bytes × Bytes)
  witnessHashes : List Bytes
  deriving Repr

/-- Bytecodes (`OPCODE_TO_BYTECODE` in `neo-blockchain-core`) used by
`lookupOp`. -/
def PUSH16 : Nat := 0x60

/-- The RET bytecode. -/
def RET : Nat := 0x66

/-- The set of bytes bound in the `OPCODE_PAIRS` dispatch table
(`opcodes.js` lines 226-1257): push opcodes 0x00-0x4F (0x50 unbound),
PUSH1-PUSH16 at 0x51-0x60, control flow and stack opcodes 0x61-0x6D and
0x72-0x87 (0x6E-0x71 and 0x88-0x8A unbound), arithmetic at 0x8B-0x8D,
0x8F-0x99, 0x9A-0x9C and 0x9E-0xA5, hashes at 0xA7-0xAA, CHECKSIG at 0xAC,
CHECKMULTISIG at 0xAE, collections at 0xC0-0xC6 and THROW/THROWIFNOT at
0xF0/0xF1. -/
def opcodeBytes : List Nat :=
  List.range 0x50
    ++ List.range' 0x51 16
    ++ List.range' 0x61 13
    ++ List.range' 0x72 22
    ++ [0x8B, 0x8C, 0x8D]
    ++ List.range' 0x8F 11
    ++ [0x9A, 0x9B, 0x9C]
    ++ List.range' 0x9E 8
    ++ List.range' 0xA7 4
    ++ [0xAC, 0xAE]
    ++ List.range' 0xC0 7
    ++ [0xF0, 0xF1]

/-- The field names declared by the execution-context type
(`constants.js` lines 46-75). -/
def contextFieldNames : List String :=
  ["blockchain", "init", "engine", "code", "pushOnly", "scriptHash",
   "callingScriptHash", "entryScriptHash", "pc", "depth", "stack",
   "stackAlt", "done", "gasLeft", "actionIndex", "createdContracts"]

/-- Truthiness of the JavaScript property access `context.PushOnly`
performed by `lookupOp` (`opcodes.js` line 1276).  The context object has
exactly the declared fields of `contextFieldNames`; accessing any other
property name yields `undefined`, which is falsy.  The push-only flag
itself is stored under the lower-case name `pushOnly`. -/
def contextPushOnlyPropertyTruthy (ctx : ExecutionContext) : Bool :=
  if "PushOnly" ∈ contextFieldNames then ctx.pushOnly else false

/-- Opcode decoding (`opcodes.js` lines 1262-1287): read the byte at `pc`
(an unknown or unbound byte faults with UnknownOp), then fault with a
PushOnly violation when the byte is above PUSH16, is not RET, and
`context.PushOnly` is truthy.  Returns the decoded byte; the constructor is
then applied to the context with `pc` advanced past the opcode byte. -/
def lookupOp (ctx : ExecutionContext) : VM Nat := do
  match ctx.code.get? ctx.pc with
  | none => throw .unknownOp
  | some opCode =>
    if opCode ∉ opcodeBytes then throw .unknownOp
    if opCode > PUSH16 ∧ opCode ≠ RET ∧ contextPushOnlyPropertyTruthy ctx then
      throw .pushOnlyViolation
    pure opCode

/-- A context with the push-only flag set, about to decode the non-push
opcode DUP (0x76). -/
def pushOnlyDupContext : ExecutionContext where
  code := [0x76]
  pushOnly := true
  scriptHash := []
  callingScriptHash := none
  entryScriptHash := []
  pc := 0
  depth := 1
  stack := []
  stackAlt := []
  done := false
  gasLeft := 0
  actionIndex := 0
  createdContracts := []
  witnessHashes := []

/-- C2 (code behaviour): `lookupOp` tests `context.PushOnly`, but the
execution-context record declares the flag under the lower-case name
`pushOnly`, so the accessed property is always `undefined` and the
PushOnly check never fires: no context ever faults with a PushOnly
violation, and in particular decoding the non-push opcode DUP (0x76) with
`pushOnly = true` succeeds. -/
theorem lookupOp_pushonly_check_never_fires :
    (∀ ctx : ExecutionContext, lookupOp ctx ≠ .error .pushOnlyViolation)
    ∧ lookupOp pushOnlyDupContext = .ok 0x76 := by
  have hprop : ∀ ctx : ExecutionContext,
      contextPushOnlyPropertyTruthy ctx = false := by
    intro ctx
    simp [contextPushOnlyPropertyTruthy, contextFieldNames]
  constructor
  · intro ctx
    cases hget : ctx.code[ctx.pc]? with
    | none =>
      simp [lookupOp, List.get?_eq_getElem?, hget, throw, throwThe,
        MonadExceptOf.throw]
    | some opCode =>
      simp only [lookupOp, List.get?_eq_getElem?, hget, hprop,
        Bool.false_eq_true, and_false, if_false]
      split
      · simp [Except.map, throw, throwThe, MonadExceptOf.throw]
      · simp [Bind.bind, Except.bind, pure, Except.pure]
  · rfl

/-- Read a signed 16-bit little-endian integer (`Buffer.readInt16LE`); a
read past the end of the buffer throws a `RangeError`. -/
def readInt16LE (code : Bytes) (pc : Nat) : VM Int :=
  match code.get? pc, code.get? (pc + 1) with
  | some b0, some b1 =>
    let u := b0 % 256 + 256 * (b1 % 256)
    pure (if 32768 ≤ u then (u : Int) - 65536 else (u : Int))
  | _, _ => .error .rangeError

/-- The `jump` invoke (`opcodes.js` lines 147-181); `ctx.pc` points at the
offset bytes (the decoder already advanced it past the opcode byte).  The
offset is read, `pc` advances by 2, the target is `pc + offset - 3`, a
target below 0 or above the code length faults with CodeOverflow, and the
conditional forms (`checkTrue = some b`) jump according to the Boolean
coercion of the popped item. -/
def jumpInvoke (checkTrue : Option Bool) (ctx : ExecutionContext)
    (args : List StackItem) : VM ExecutionContext := do
  let offset ← readInt16LE ctx.code ctx.pc
  let pc : Int := (ctx.pc : Int) + 2
  let newPC := pc + offset - 3
  if newPC < 0 ∨ newPC > (ctx.code.length : Int) then throw .codeOverflow
  let shouldJump ←
    match checkTrue with
    | none => pure true
    | some ct => do
      let b := (← jsGet args 0).asBoolean
      pure (if ct then b else !b)
  pure { ctx with pc := (if shouldJump then newPC else pc).toNat }

/-- One jump-opcode step starting from the opcode byte at `ctx.pc`: the
decoder advances `pc` by 1, the dispatcher pops `in` items (0 for JMP, 1
for the conditional forms), then the invoke runs. -/
def runJump (checkTrue : Option Bool) (ctx : ExecutionContext) :
    VM ExecutionContext := do
  let ctx1 := { ctx with pc := ctx.pc + 1 }
  let inCount := if checkTrue = none then 0 else 1
  if ctx1.stack.length < inCount then throw .stackUnderflow
  jumpInvoke checkTrue { ctx1 with stack := ctx1.stack.drop inCount }
    (ctx1.stack.take inCount)

/-- JMP (`opcodes.js` line 224): unconditional. -/
def execJMP : ExecutionContext → VM ExecutionContext := runJump none

/-- JMPIF (`opcodes.js` line 270): jump when the popped Boolean is true. -/
def execJMPIF : ExecutionContext → VM ExecutionContext := runJump (some true)

/-- JMPIFNOT (`opcodes.js` line 271): jump when the popped Boolean is
false. -/
def execJMPIFNOT : ExecutionContext → VM ExecutionContext :=
  runJump (some false)

/-- C5: jump semantics.  With the opcode byte at `ctx.pc`, the 16-bit LE
offset is read at `ctx.pc + 1`; the taken-jump target is
`(ctx.pc + 1) + 2 + offset - 3` (the position of the offset bytes, plus 2,
plus the offset, minus 3); a target below 0 or above the code length faults
with CodeOverflow (for all three forms); otherwise JMP jumps
unconditionally, while JMPIF/JMPIFNOT pop exactly one item and jump exactly
when its Boolean coercion is true/false, falling through to `ctx.pc + 3`
(the instruction after the offset bytes) otherwise. -/
theorem jump_semantics (ctx : ExecutionContext) (o : Int)
    (hread : readInt16LE ctx.code (ctx.pc + 1) = .ok o) :
    (execJMP ctx =
      (if ((ctx.pc + 1 : Nat) : Int) + 2 + o - 3 < 0 ∨
          ((ctx.pc + 1 : Nat) : Int) + 2 + o - 3 > (ctx.code.length : Int)
        then .error .codeOverflow
        else .ok { ctx with
          pc := (((ctx.pc + 1 : Nat) : Int) + 2 + o - 3).toNat }))
    ∧ (∀ t rest, ctx.stack = t :: rest →
        (execJMPIF ctx =
          (if ((ctx.pc + 1 : Nat) : Int) + 2 + o - 3 < 0 ∨
              ((ctx.pc + 1 : Nat) : Int) + 2 + o - 3 > (ctx.code.length : Int)
            then .error .codeOverflow
            else .ok { ctx with
              stack := rest,
              pc := if t.asBoolean
                then (((ctx.pc + 1 : Nat) : Int) + 2 + o - 3).toNat
                else ctx.pc + 3 }))
        ∧ (execJMPIFNOT ctx =
          (if ((ctx.pc + 1 : Nat) : Int) + 2 + o - 3 < 0 ∨
              ((ctx.pc + 1 : Nat) : Int) + 2 + o - 3 > (ctx.code.length : Int)
            then .error .codeOverflow
            else .ok { ctx with
              stack := rest,
              pc := if t.asBoolean
                then ctx.pc + 3
                else (((ctx.pc + 1 : Nat) : Int) + 2 + o - 3).toNat }))) := by
  have hfall : (((ctx.pc + 1 : Nat) : Int) + 2).toNat = ctx.pc + 3 := by
    omega
  refine ⟨?_, fun t rest hstack => ⟨?_, ?_⟩⟩
  · simp only [execJMP, runJump, jumpInvoke, hread, vm_bind_ok, vm_pure,
      vm_throw, Nat.not_lt_zero, if_false, reduceCtorEq, ite_false,
      Nat.lt_irrefl]
    split_ifs with h1 h2 <;> first | rfl | omega
  · have hg : ¬ (rest.length + 1 < 1) := by omega
    simp only [execJMPIF, runJump, jumpInvoke, hread, hstack, jsGet,
      List.length_cons, List.take, List.drop, List.get?, vm_bind_ok,
      vm_pure, vm_throw, hg, if_false, ite_false]
    cases hb : t.asBoolean <;>
      split_ifs <;>
        first
          | omega
          | contradiction
          | (simp [hb, hfall] <;> omega)
  · have hg : ¬ (rest.length + 1 < 1) := by omega
    simp only [execJMPIFNOT, runJump, jumpInvoke, hread, hstack, jsGet,
      List.length_cons, List.take, List.drop, List.get?, vm_bind_ok,
      vm_pure, vm_throw, hg, if_false, ite_false]
    cases hb : t.asBoolean <;>
      split_ifs <;>
        first
          | omega
          | contradiction
          | (simp [hb, hfall] <;> omega)

/-- Witness for C5 at a concrete context: code `JMPIF 0x05 0x00 NOP NOP
NOP` with a true condition on the stack jumps to target 5. -/
theorem jump_semantics_witness :
    execJMPIF { code := [0x63, 0x05, 0x00, 0x61, 0x61, 0x61],
                pushOnly := false, scriptHash := [],
                callingScriptHash := none, entryScriptHash := [], pc := 0,
                depth := 1, stack := [.boolean true], stackAlt := [],
                done := false, gasLeft := 0, actionIndex := 0,
                createdContracts := [], witnessHashes := [] }
      = .ok { code := [0x63, 0x05, 0x00, 0x61, 0x61, 0x61],
              pushOnly := false, scriptHash := [],
              callingScriptHash := none, entryScriptHash := [], pc := 5,
              depth := 1, stack := [], stackAlt := [],
              done := false, gasLeft := 0, actionIndex := 0,
              createdContracts := [], witnessHashes := [] } := by
  have h := ((jump_semantics
    { code := [0x63, 0x05, 0x00, 0x61, 0x61, 0x61],
      pushOnly := false, scriptHash := [],
      callingScriptHash := none, entryScriptHash := [], pc := 0,
      depth := 1, stack := [.boolean true], stackAlt := [],
      done := false, gasLeft := 0, actionIndex := 0,
      createdContracts := [], witnessHashes := [] } 5 rfl).2
    (.boolean true) [] rfl).1
  simpa using h

/-- Opcode descriptor fields (`constants.js` lines 88-102): the stack-size
accounting counts (`in`, `inAlt`, `out`, `outAlt`, `modify`, `modifyAlt`,
`invocation`, `array`, `item`) and the fee. -/
structure Op where
  name : String
  in_ : Nat
  inAlt : Nat
  out : Nat
  outAlt : Nat
  modify : Int
  modifyAlt : Int
  invocation : Nat
  arraySize : Nat
  item : Nat
  fee : Int
  deriving Repr

/-- The descriptor half of `createOp` (`opcodes.js` lines 54-94): every
field that the call site omits defaults to zero (`in_ || 0` and so on);
call sites pass `none` for an omitted field. -/
def createOp (name : String) (in_ inAlt out outAlt : Option Nat)
    (modify modifyAlt : Option Int) (invocation arraySize item : Option Nat)
    (fee : Option Int) : Op where
  name := name
  in_ := in_.getD 0
  inAlt := inAlt.getD 0
  out := out.getD 0
  outAlt := outAlt.getD 0
  modify := modify.getD 0
  modifyAlt := modifyAlt.getD 0
  invocation := invocation.getD 0
  arraySize := arraySize.getD 0
  item := item.getD 0
  fee := fee.getD 0

/-- The OVER descriptor (`opcodes.js` lines 441-446): the call site gives
only `name`, `in: 2` and the invoke function, so every other field —
including `out` — defaults to 0. -/
def OVER : Op :=
  createOp "OVER" (some 2) none none none none none none none none none

/-- The OVER invoke (`opcodes.js` lines 444-445): with `args[0]` the top of
the stack, push `args[1], args[0], args[1]`. -/
def OVERinvoke (args : List StackItem) : VM (List StackItem) := do
  pure [← jsGet args 1, ← jsGet args 0, ← jsGet args 1]

/-- C4 behaviour at OVER: the descriptor declares `out = 0`, yet the invoke
returns three results for any two popped arguments, so the number of items
actually pushed exceeds the `out` bound used by the dispatcher's stack-size
accounting. -/
theorem over_pushes_more_than_out (a b : StackItem) :
    OVER.out = 0 ∧ OVERinvoke [a, b] = .ok [b, a, b]
      ∧ ¬ ([b, a, b].length ≤ OVER.out) := by
  refine ⟨rfl, ?_, by simp [OVER, createOp]⟩
  simp [OVERinvoke, jsGet]

/-- The ledger state visible to the syscalls used by the claims: contracts,
accounts and storage items (keyed by contract hash and key), plus the
governing-token hash from the blockchain settings.  The storage facade
itself is external (spec §4.7); association lists model its typed
collections. -/
structure Blockchain where
  contracts : List Contract
  accounts : List Account
  storageItems : List (Bytes × Bytes × Bytes)
  governingTokenHash : Bytes
  deriving Repr

/-- `contract.tryGet` on the facade: `none` when the hash is unbound. -/
def Blockchain.contractTryGet (bc : Blockchain) (hash : Bytes) :
    Option Contract :=
  bc.contracts.find? (fun c => c.hash == hash)

/-- `contract.get` on the facade: faults when the hash is unbound. -/
def Blockchain.contractGet (bc : Blockchain) (hash : Bytes) : VM Contract :=
  match bc.contractTryGet hash with
  | some c => pure c
  | none => .error .keyNotFound

/-- `account.get` on the facade. -/
def Blockchain.accountGet (bc : Blockchain) (hash : Bytes) : VM Account :=
  match bc.accounts.find? (fun a => a.hash == hash) with
  | some a => pure a
  | none => .error .keyNotFound

/-- `storageItem.tryGet` on the facade, keyed by (contract hash, key). -/
def Blockchain.storageTryGet (bc : Blockchain) (hash key : Bytes) :
    Option Bytes :=
  (bc.storageItems.find? (fun e => e.1 == hash && e.2.1 == key)).map
    (fun e => e.2.2)

/-- A JavaScript promise, as returned by an `async` function that has not
been awaited. -/
structure JSPromise (α : Type) where
  value : α
  deriving Repr

/-- JavaScript truthiness of a promise: a promise is an object, and every
object is truthy, whatever it resolves to. -/
def JSPromise.truthy {α : Type} (_ : JSPromise α) : Bool := true

/-- `checkWitness` (`syscalls.js` lines 141-170): an async function that
resolves to whether the hash is in the script container's witness-hash set
(`getScriptHashesForVerifying` is external; modelled from the spec as the
`witnessHashes` set carried in the context). -/
def checkWitness (ctx : ExecutionContext) (hash : Bytes) : JSPromise Bool :=
  ⟨ctx.witnessHashes.contains hash⟩

/-- Modelled from the spec: `vmUtils.toStorageContext` (source not under
`src/`) asserts the item is a storage context and returns it; its `value`
is the bound script hash. -/
def toStorageContext : StackItem → VM Bytes
  | .storageContext h => pure h
  | _ => .error .invalidType

/-- `checkStorage` (`syscalls.js` lines 245-257): load the contract and
fault with ContractNoStorage unless it has storage. -/
def checkStorage (bc : Blockchain) (hash : Bytes) : VM Contract := do
  let contract ← bc.contractGet hash
  if !contract.hasStorage then throw .contractNoStorage
  pure contract

/-- Neo.Storage.Get invoke (`syscalls.js` lines 861-879): resolve the
storage context to a contract hash, require storage, then push the stored
value for the key, or an empty buffer when the key is absent. -/
def storageGetInvoke (bc : Blockchain) (args : List StackItem) :
    VM (List StackItem) := do
  let hash ← toStorageContext (← jsGet args 0)
  let _ ← checkStorage bc hash
  let key ← (← jsGet args 1).asBuffer
  let result := match bc.storageTryGet hash key with
    | none => ([] : Bytes)
    | some v => v
  pure [.buffer result]

/-- C8: Neo.Storage.Get faults with ContractNoStorage exactly when the
contract bound in the storage context has `hasStorage = false`; with
storage present it pushes the stored value for the key, and an empty buffer
(not a fault) when the key is absent. -/
theorem storage_get_semantics (bc : Blockchain) (h k : Bytes) (c : Contract)
    (hc : bc.contractTryGet h = some c) :
    (c.hasStorage = false →
      storageGetInvoke bc [.storageContext h, .buffer k]
        = .error .contractNoStorage)
    ∧ (c.hasStorage = true →
      (∀ v, bc.storageTryGet h k = some v →
        storageGetInvoke bc [.storageContext h, .buffer k]
          = .ok [.buffer v])
      ∧ (bc.storageTryGet h k = none →
        storageGetInvoke bc [.storageContext h, .buffer k]
          = .ok [.buffer []])) := by
  refine ⟨fun hns => ?_, fun hs => ⟨fun v hv => ?_, fun hnone => ?_⟩⟩ <;>
    simp [storageGetInvoke, jsGet, toStorageContext, checkStorage,
      Blockchain.contractGet, hc, StackItem.asBuffer, *]

/-- Witness for C8: a one-contract blockchain with storage and one stored
item. -/
theorem storage_get_semantics_witness :
    storageGetInvoke
        { contracts := [{ script := [], parameterList := [],
                          returnType := 0, hasStorage := true, name := [],
                          codeVersion := [], author := [], email := [],
                          description := [], hash := [5] }],
          accounts := [],
          storageItems := [([5], [1], [9])],
          governingTokenHash := [] }
        [.storageContext [5], .buffer [1]]
      = .ok [.buffer [9]] := by
  exact ((storage_get_semantics
    { contracts := [{ script := [], parameterList := [],
                      returnType := 0, hasStorage := true, name := [],
                      codeVersion := [], author := [], email := [],
                      description := [], hash := [5] }],
      accounts := [],
      storageItems := [([5], [1], [9])],
      governingTokenHash := [] }
    [5] [1]
    { script := [], parameterList := [],
      returnType := 0, hasStorage := true, name := [],
      codeVersion := [], author := [], email := [],
      description := [], hash := [5] }
    rfl).2 rfl).1 [9] rfl

/-- `Account.isDeletable` (`Account.js` lines 85-94): not frozen, no votes,
and all balances at most zero. -/
def Account.isDeletable (a : Account) : Bool :=
  !a.isFrozen && a.votes.length == 0 &&
    (a.balances.isEmpty || a.balances.all (fun kv => kv.2 ≤ 0))

/-- `Account.update` restricted to the `votes` field (`Account.js` lines
96-107), as used by Neo.Account.SetVotes. -/
def Account.updateVotes (a : Account) (votes : List Bytes) : Account :=
  { a with votes := votes }

/-- `account.update` on the facade: replace the stored account. -/
def Blockchain.accountUpdateVotes (bc : Blockchain) (old : Account)
    (votes : List Bytes) : Blockchain × Account :=
  let newAccount := old.updateVotes votes
  let accounts := bc.accounts.map
    (fun a => if a.hash == old.hash then newAccount else a)
  ({ bc with accounts := accounts }, newAccount)

/-- `account.delete` on the facade. -/
def Blockchain.accountDelete (bc : Blockchain) (hash : Bytes) : Blockchain :=
  { bc with accounts := bc.accounts.filter (fun a => !(a.hash == hash)) }

/-- Neo.Account.SetVotes invoke (`syscalls.js` lines 880-913): validate the
vote count, load the account, check the frozen flag and the governing-token
balance, perform the witness check, then update the votes and delete the
account if it became deletable.  The witness test is embedded exactly as
written in the source: `if (!checkWitness({ context, hash: address }))` —
`checkWitness` is `async` and the call is not awaited, so the negation is
applied to the promise object itself. -/
def setVotesInvoke (bc : Blockchain) (ctx : ExecutionContext)
    (args : List StackItem) : VM Blockchain := do
  let address := (← (← jsGet args 0).asAccount).hash
  let votes ← (← (← jsGet args 1).asArray).mapM StackItem.asECPoint
  if votes.length > MAX_VOTES then throw .tooManyVotes
  let account ← bc.accountGet address
  let asset := bc.governingTokenHash
  let balance := (account.balances.lookup asset).getD 0
  if account.isFrozen then throw .accountFrozen
  if balance = 0 ∧ 0 < votes.length then throw .notEligibleVote
  if !(checkWitness ctx address).truthy then throw .badWitnessCheck
  let updated := bc.accountUpdateVotes account votes
  let bc1 := updated.1
  let newAccount := updated.2
  let bc2 := if newAccount.isDeletable then bc1.accountDelete address
    else bc1
  pure bc2

/-- The only error `jsGet` raises is a TypeError. -/
theorem jsGet_error_eq (args : List StackItem) (i : Nat) (e : VMError)
    (h : jsGet args i = .error e) : e = .typeError := by
  unfold jsGet at h
  split at h <;> simp_all

/-- The only error `asAccount` raises is an InvalidType error. -/
theorem asAccount_error_eq (a : StackItem) (e : VMError)
    (h : a.asAccount = .error e) : e = .invalidType := by
  cases a <;> simp_all [StackItem.asAccount]

/-- The only error `asArray` raises is an InvalidType error. -/
theorem asArray_error_eq (a : StackItem) (e : VMError)
    (h : a.asArray = .error e) : e = .invalidType := by
  cases a <;> simp_all [StackItem.asArray]

/-- The only error `asECPoint` raises is an InvalidType error. -/
theorem asECPoint_error_eq (a : StackItem) (e : VMError)
    (h : a.asECPoint = .error e) : e = .invalidType := by
  cases a <;> simp_all [StackItem.asECPoint]

/-- The only error mapping `asECPoint` over a list raises is an InvalidType
error. -/
theorem mapM_asECPoint_error_eq (l : List StackItem) (e : VMError)
    (h : List.mapM StackItem.asECPoint l = .error e) : e = .invalidType := by
  induction l generalizing e with
  | nil => simp [List.mapM, List.mapM.loop] at h
  | cons x xs ih =>
    rw [List.mapM_cons] at h
    cases hx : x.asECPoint with
    | error e2 =>
      rw [hx] at h
      simp only [vm_bind_error, Except.error.injEq] at h
      rw [← h]
      exact asECPoint_error_eq x e2 hx
    | ok v =>
      rw [hx] at h
      simp only [vm_bind_ok] at h
      cases hxs : List.mapM StackItem.asECPoint xs with
      | error e3 =>
        rw [hxs] at h
        simp only [vm_bind_error, Except.error.injEq] at h
        rw [← h]
        exact ih e3 hxs
      | ok vs => rw [hxs] at h; simp at h

/-- The only error `accountGet` raises is a missing-key error. -/
theorem accountGet_error_eq (bc : Blockchain) (hash : Bytes) (e : VMError)
    (h : bc.accountGet hash = .error e) : e = .keyNotFound := by
  unfold Blockchain.accountGet at h
  split at h <;> simp_all

/-- C3 (code behaviour): the BadWitness branch of Neo.Account.SetVotes is
unreachable — `checkWitness` is called without `await`, a promise is always
truthy, so no invocation ever faults with BadWitness; in particular, when
every other precondition holds and the account hash is NOT in the witness
set, the votes are updated anyway. -/
theorem setvotes_never_faults_badwitness :
    (∀ (bc : Blockchain) (ctx : ExecutionContext) (args : List StackItem),
      setVotesInvoke bc ctx args ≠ .error .badWitnessCheck)
    ∧ (∀ (bc : Blockchain) (ctx : ExecutionContext) (acct : Account)
        (votes : List StackItem) (votesEC : List Bytes),
      bc.accountGet acct.hash = .ok acct →
      votes.mapM StackItem.asECPoint = .ok votesEC →
      votesEC.length ≤ MAX_VOTES →
      acct.isFrozen = false →
      ¬ ((acct.balances.lookup bc.governingTokenHash).getD 0 = 0 ∧
          0 < votesEC.length) →
      ctx.witnessHashes.contains acct.hash = false →
      setVotesInvoke bc ctx [.accountItem acct, .array votes]
        = .ok (if (acct.updateVotes votesEC).isDeletable
            then ((bc.accountUpdateVotes acct votesEC).1).accountDelete
              acct.hash
            else (bc.accountUpdateVotes acct votesEC).1)) := by
  constructor
  · intro bc ctx args
    unfold setVotesInvoke
    cases h0 : jsGet args 0 with
    | error e => simp [jsGet_error_eq args 0 e h0]
    | ok a0 =>
      simp only [vm_bind_ok]
      cases ha : a0.asAccount with
      | error e => simp [asAccount_error_eq a0 e ha]
      | ok acct =>
        simp only [vm_bind_ok]
        cases h1 : jsGet args 1 with
        | error e => simp [jsGet_error_eq args 1 e h1]
        | ok a1 =>
          simp only [vm_bind_ok]
          cases har : a1.asArray with
          | error e => simp [asArray_error_eq a1 e har]
          | ok arr =>
            simp only [vm_bind_ok]
            cases hm : List.mapM StackItem.asECPoint arr with
            | error e => simp [mapM_asECPoint_error_eq arr e hm]
            | ok votes =>
              simp only [vm_bind_ok]
              split
              · simp
              · cases hacct : bc.accountGet acct.hash with
                | error e => simp [accountGet_error_eq bc acct.hash e hacct]
                | ok account =>
                  simp only [vm_bind_ok]
                  split
                  · simp
                  · split
                    · simp
                    · simp [checkWitness, JSPromise.truthy]
  · intro bc ctx acct votes votesEC hacct hmap hlen hfrozen hbal hwit
    have hlen2 : ¬ (MAX_VOTES < votesEC.length) := by omega
    unfold setVotesInvoke
    simp only [jsGet, List.get?, StackItem.asAccount, StackItem.asArray,
      vm_bind_ok, hmap, hacct, hlen2, hfrozen, hbal, checkWitness,
      JSPromise.truthy, Bool.not_true, Bool.false_eq_true, if_false,
      ite_false, gt_iff_lt, Bool.not_eq_true]
    have hmap2 : List.mapM.loop StackItem.asECPoint votes []
        = Except.ok votesEC := hmap
    simp [hmap2, hacct, hbal, hfrozen, hlen2, Blockchain.accountUpdateVotes]

/-- Witness for C3's second part: an account with a positive
governing-token balance whose hash is not in the witness set still gets its
votes updated, with no BadWitness fault. -/
theorem setvotes_witness :
    setVotesInvoke
        { contracts := [],
          accounts := [{ hash := [1], isFrozen := false, votes := [],
                         balances := [([2], 5)] }],
          storageItems := [], governingTokenHash := [2] }
        { code := [], pushOnly := false, scriptHash := [],
          callingScriptHash := none, entryScriptHash := [], pc := 0,
          depth := 1, stack := [], stackAlt := [], done := false,
          gasLeft := 0, actionIndex := 0, createdContracts := [],
          witnessHashes := [] }
        [.accountItem { hash := [1], isFrozen := false, votes := [],
                        balances := [([2], 5)] },
         .array [.ecPoint [3]]]
      = .ok { contracts := [],
              accounts := [{ hash := [1], isFrozen := false,
                             votes := [[3]], balances := [([2], 5)] }],
              storageItems := [], governingTokenHash := [2] } := by
  have h := setvotes_never_faults_badwitness.2
    { contracts := [],
      accounts := [{ hash := [1], isFrozen := false, votes := [],
                     balances := [([2], 5)] }],
      storageItems := [], governingTokenHash := [2] }
    { code := [], pushOnly := false, scriptHash := [],
      callingScriptHash := none, entryScriptHash := [], pc := 0,
      depth := 1, stack := [], stackAlt := [], done := false,
      gasLeft := 0, actionIndex := 0, createdContracts := [],
      witnessHashes := [] }
    { hash := [1], isFrozen := false, votes := [], balances := [([2], 5)] }
    [.ecPoint [3]] [[3]] rfl rfl (by decide) rfl (by decide) rfl
  simpa [Blockchain.accountUpdateVotes, Account.updateVotes,
    Account.isDeletable, Blockchain.accountDelete] using h

/-- `createContract` (`syscalls.js` lines 202-243): parse the nine
arguments (script, parameter list, return type, hasStorage, name, code
version, author, email, description), hash the script, and add a new
contract only when the hash is unbound; returns the contract (new or
pre-existing) and whether it was created.  `crypto.hash160` and
`assertContractParameterType` are external (not under `src/`) and are
passed as the parameters `hash160` and `assertCPT`, modelled from the
spec. -/
def createContract (hash160 : Bytes → Bytes) (assertCPT : Int → VM Nat)
    (bc : Blockchain) (args : List StackItem) :
    VM (Blockchain × Contract × Bool) := do
  let script ← (← jsGet args 0).asBuffer
  let parameterList ← (← (← jsGet args 1).asBuffer).mapM
    (fun parameter => assertCPT (Int.ofNat parameter))
  let returnType ← assertCPT (← (← jsGet args 2).asBigInteger)
  let a3 ← jsGet args 3
  let hasStorage := a3.asBoolean
  let name ← (← jsGet args 4).asString
  let codeVersion ← (← jsGet args 5).asString
  let author ← (← jsGet args 6).asString
  let email ← (← jsGet args 7).asString
  let description ← (← jsGet args 8).asString
  let hash := hash160 script
  match bc.contractTryGet hash with
  | some contract => pure (bc, contract, false)
  | none =>
    let contract : Contract :=
      { script := script, parameterList := parameterList,
        returnType := returnType, hasStorage := hasStorage, name := name,
        codeVersion := codeVersion, author := author, email := email,
        description := description, hash := hash }
    pure ({ bc with contracts := bc.contracts ++ [contract] },
      contract, true)

/-- Neo.Contract.Create invoke (`syscalls.js` lines 1017-1036): run
`createContract`, then record `createdContracts[contract.hash] =
ctx.scriptHash` in the returned context — unconditionally, whether or not
anything was newly created — and push the contract. -/
def contractCreateInvoke (hash160 : Bytes → Bytes)
    (assertCPT : Int → VM Nat) (bc : Blockchain) (ctx : ExecutionContext)
    (args : List StackItem) :
    VM (Blockchain × ExecutionContext × List StackItem) := do
  let r ← createContract hash160 assertCPT bc args
  let contract := r.2.1
  pure (r.1,
    { ctx with createdContracts :=
        (contract.hash, ctx.scriptHash) :: ctx.createdContracts },
    [.contractItem contract])

/-- Neo.Contract.GetStorageContext invoke (`syscalls.js` lines 1071-1087):
look up `createdContracts[contract.hash]`; a missing entry makes
`uInt160Equal(undefined, ...)` throw a TypeError, a mismatch faults with
InvalidContractGetStorageContext, and a match pushes the storage context
bound to the contract's hash. -/
def getStorageContextInvoke (ctx : ExecutionContext)
    (args : List StackItem) : VM (List StackItem) := do
  let contract ← (← jsGet args 0).asContract
  match ctx.createdContracts.lookup contract.hash with
  | none => throw .typeError
  | some createdScriptHash =>
    if !(createdScriptHash == ctx.scriptHash) then
      throw .invalidContractGetStorageContext
    pure [.storageContext contract.hash]

/-- Inversion for a successful bind: the first computation succeeded and
its continuation succeeded on the produced value. -/
theorem vm_bind_eq_ok {α β : Type} {x : VM α} {f : α → VM β} {r : β}
    (h : (x >>= f) = .ok r) : ∃ a, x = .ok a ∧ f a = .ok r := by
  cases x with
  | error e => simp at h
  | ok a => exact ⟨a, rfl, by simpa using h⟩

/-- C9: when the script of a completed Neo.Contract.Create invocation
hashes to a contract that already existed, nothing is created (the ledger
is unchanged and the pre-existing contract is pushed), yet
`createdContracts[contract hash]` is still set to the executing script
hash, so a subsequent Neo.Contract.GetStorageContext on that pre-existing
contract in the resulting context succeeds instead of faulting. -/
theorem contract_create_pre_existing (hash160 : Bytes → Bytes)
    (assertCPT : Int → VM Nat) (bc : Blockchain) (ctx : ExecutionContext)
    (s : Bytes) (restArgs : List StackItem) (c0 : Contract)
    (out : Blockchain × ExecutionContext × List StackItem)
    (hpre : bc.contractTryGet (hash160 s) = some c0)
    (hrun : contractCreateInvoke hash160 assertCPT bc ctx
      (.buffer s :: restArgs) = .ok out) :
    out.1 = bc
    ∧ out.2.2 = [.contractItem c0]
    ∧ out.2.1.createdContracts.lookup c0.hash = some ctx.scriptHash
    ∧ getStorageContextInvoke out.2.1 [.contractItem c0]
      = .ok [.storageContext c0.hash] := by
  unfold contractCreateInvoke at hrun
  obtain ⟨r, hcc, hrun⟩ := vm_bind_eq_ok hrun
  simp only [vm_pure, Except.ok.injEq] at hrun
  unfold createContract at hcc
  obtain ⟨x0, hx0, hcc⟩ := vm_bind_eq_ok hcc
  simp only [jsGet, List.get?, vm_pure, Except.ok.injEq] at hx0
  subst hx0
  obtain ⟨script, hscript, hcc⟩ := vm_bind_eq_ok hcc
  simp only [StackItem.asBuffer, vm_pure, Except.ok.injEq] at hscript
  subst hscript
  obtain ⟨x1, _hx1, hcc⟩ := vm_bind_eq_ok hcc
  obtain ⟨b1, _hb1, hcc⟩ := vm_bind_eq_ok hcc
  obtain ⟨pl, _hpl, hcc⟩ := vm_bind_eq_ok hcc
  obtain ⟨x2, _hx2, hcc⟩ := vm_bind_eq_ok hcc
  obtain ⟨n2, _hn2, hcc⟩ := vm_bind_eq_ok hcc
  obtain ⟨rt, _hrt, hcc⟩ := vm_bind_eq_ok hcc
  obtain ⟨a3, _ha3, hcc⟩ := vm_bind_eq_ok hcc
  obtain ⟨x4, _hx4, hcc⟩ := vm_bind_eq_ok hcc
  obtain ⟨nm, _hnm, hcc⟩ := vm_bind_eq_ok hcc
  obtain ⟨x5, _hx5, hcc⟩ := vm_bind_eq_ok hcc
  obtain ⟨cv, _hcv, hcc⟩ := vm_bind_eq_ok hcc
  obtain ⟨x6, _hx6, hcc⟩ := vm_bind_eq_ok hcc
  obtain ⟨au, _hau, hcc⟩ := vm_bind_eq_ok hcc
  obtain ⟨x7, _hx7, hcc⟩ := vm_bind_eq_ok hcc
  obtain ⟨em, _hem, hcc⟩ := vm_bind_eq_ok hcc
  obtain ⟨x8, _hx8, hcc⟩ := vm_bind_eq_ok hcc
  obtain ⟨de, _hde, hcc⟩ := vm_bind_eq_ok hcc
  simp only [hpre, vm_pure, Except.ok.injEq] at hcc
  subst hcc
  subst hrun
  refine ⟨rfl, rfl, ?_, ?_⟩
  · simp [List.lookup]
  · simp [getStorageContextInvoke, jsGet, StackItem.asContract,
      List.lookup]

/-- A pre-existing contract with hash `[1]`, used by the C9 witness. -/
def preContract : Contract where
  script := [9]
  parameterList := []
  returnType := 0
  hasStorage := false
  name := []
  codeVersion := []
  author := []
  email := []
  description := []
  hash := [1]

/-- A ledger already holding `preContract`, used by the C9 witness. -/
def preBlockchain : Blockchain where
  contracts := [preContract]
  accounts := []
  storageItems := []
  governingTokenHash := []

/-- The executing context for the C9 witness: script hash `[4]`, no
recorded created contracts. -/
def preCtx : ExecutionContext where
  code := []
  pushOnly := false
  scriptHash := [4]
  callingScriptHash := none
  entryScriptHash := []
  pc := 0
  depth := 1
  stack := []
  stackAlt := []
  done := false
  gasLeft := 0
  actionIndex := 0
  createdContracts := []
  witnessHashes := []

/-- The nine Contract.Create arguments for the C9 witness; the script
`[7]` hashes (under the witness hash function, constantly `[1]`) to the
pre-existing contract. -/
def preArgs : List StackItem :=
  [.buffer [7], .buffer [], .integer 0, .boolean false, .buffer [],
   .buffer [], .buffer [], .buffer [], .buffer []]

/-- Witness for C9: Contract.Create on a script hashing to the
pre-existing contract leaves the ledger unchanged, records the creator,
and GetStorageContext on the pre-existing contract succeeds. -/
theorem contract_create_pre_existing_witness :
    contractCreateInvoke (fun _ => [1]) (fun _ => pure 0) preBlockchain
        preCtx preArgs
      = .ok (preBlockchain,
          { preCtx with createdContracts := [([1], [4])] },
          [.contractItem preContract])
    ∧ getStorageContextInvoke
        { preCtx with createdContracts := [([1], [4])] }
        [.contractItem preContract]
      = .ok [.storageContext [1]] := by
  have hrun : contractCreateInvoke (fun _ => [1])
      (fun _ => (pure 0 : VM Nat)) preBlockchain preCtx
      (.buffer [7] :: [.buffer [], .integer 0, .boolean false, .buffer [],
        .buffer [], .buffer [], .buffer [], .buffer []])
      = .ok (preBlockchain,
          { preCtx with createdContracts := [([1], [4])] },
          [.contractItem preContract]) := rfl
  have h := contract_create_pre_existing (fun _ => [1])
    (fun _ => pure 0) preBlockchain preCtx [7]
    [.buffer [], .integer 0, .boolean false, .buffer [], .buffer [],
     .buffer [], .buffer [], .buffer []]
    preContract
    (preBlockchain,
      { preCtx with createdContracts := [([1], [4])] },
      [.contractItem preContract])
    rfl hrun
  exact ⟨hrun, h.2.2.2⟩

/-- The declared input arity of Neo.Account.GetBalance (`syscalls.js` line
737: `in: 1`): the dispatcher pops exactly one argument for it. -/
def accountGetBalanceIn : Nat := 1

/-- Neo.Account.GetBalance invoke (`syscalls.js` lines 735-751): read the
account from `args[0]`, reload its state from the ledger, then read the
asset id from `args[1]` and push the balance. -/
def getBalanceInvoke (bc : Blockchain) (args : List StackItem) :
    VM (List StackItem) := do
  let account ← (← jsGet args 0).asAccount
  let accountState ← bc.accountGet account.hash
  let asset ← (← jsGet args 1).asUInt256
  let result := (accountState.balances.lookup asset).getD 0
  pure [.integer result]

/-- C10: Neo.Account.GetBalance declares `in = 1` but reads `args[1]`, so
under the declared arity every invocation faults (the missing argument, or
an earlier coercion/lookup failure) and the syscall never pushes a
balance; with a well-formed account argument the fault is precisely the
TypeError from the missing second argument. -/
theorem getbalance_never_returns (bc : Blockchain) (args : List StackItem)
    (hlen : args.length = accountGetBalanceIn) :
    (∃ e, getBalanceInvoke bc args = .error e)
    ∧ (∀ acct acctState, args = [.accountItem acct] →
        bc.accountGet acct.hash = .ok acctState →
        getBalanceInvoke bc args = .error .typeError) := by
  constructor
  · unfold getBalanceInvoke
    cases h0 : jsGet args 0 with
    | error e => exact ⟨e, by simp⟩
    | ok a0 =>
      simp only [vm_bind_ok]
      cases ha : a0.asAccount with
      | error e => exact ⟨e, by simp⟩
      | ok acct =>
        simp only [vm_bind_ok]
        cases hacct : bc.accountGet acct.hash with
        | error e => exact ⟨e, by simp⟩
        | ok acctState =>
          simp only [vm_bind_ok]
          have hlen1 : args.length = 1 := hlen
          have h1 : jsGet args 1 = .error .typeError := by
            have hgetn : args[1]? = none := by
              apply List.getElem?_eq_none
              omega
            simp [jsGet, List.get?_eq_getElem?, hgetn]
          exact ⟨.typeError, by simp [h1]⟩
  · intro acct acctState hargs hacct
    subst hargs
    simp [getBalanceInvoke, jsGet, StackItem.asAccount, hacct]

/-- The account used by the C10 witness. -/
def balAccount : Account where
  hash := [1]
  isFrozen := false
  votes := []
  balances := []

/-- The ledger used by the C10 witness. -/
def balBlockchain : Blockchain where
  contracts := []
  accounts := [balAccount]
  storageItems := []
  governingTokenHash := []

/-- Witness for C10: a single well-formed account argument faults with a
TypeError; no balance is returned. -/
theorem getbalance_never_returns_witness :
    (∃ e, getBalanceInvoke balBlockchain [.accountItem balAccount]
      = .error e)
    ∧ getBalanceInvoke balBlockchain [.accountItem balAccount]
      = .error .typeError := by
  have h := getbalance_never_returns balBlockchain
    [.accountItem balAccount] rfl
  exact ⟨h.1, h.2 balAccount balAccount rfl rfl⟩

/-- Heap-model stack items: scalars are immediate, Arrays and Structs are
references to heap cells, making aliasing observable (spec §3: Array has
reference semantics, Struct behaves like Array but is cloned on
assignment). -/
inductive HeapItem where
  | integer (n : Int)
  | boolean (b : Bool)
  | buffer (bs : Bytes)
  | arrayRef (a : Nat)
  | structRef (a : Nat)
  deriving DecidableEq, Repr

/-- Whether a heap item is a Struct reference (`newItem instanceof
StructStackItem`). -/
def HeapItem.isStructRef : HeapItem → Bool
  | .structRef _ => true
  | _ => false

/-- The heap: cell `a` holds the element list of the Array or Struct
allocated at address `a`; allocation appends a cell. -/
structure Heap where
  cells : List (List HeapItem)
  deriving DecidableEq, Repr

/-- Allocate a new cell; its address is the previous cell count. -/
def Heap.alloc (h : Heap) (content : List HeapItem) : Heap :=
  { cells := h.cells ++ [content] }

/-- Overwrite the cell at address `a` (mutating the Array or Struct that
lives there). -/
def Heap.write (h : Heap) (a : Nat) (content : List HeapItem) : Heap :=
  { cells := h.cells.set a content }

/-- Observable deep values of heap items. -/
inductive Val where
  | int (n : Int)
  | bool (b : Bool)
  | buf (bs : Bytes)
  | arr (vs : List Val)
  | strct (vs : List Val)
  deriving Repr

mutual

/-- Deep read of a heap item: dereference Array/Struct cells recursively,
with fuel bounding the depth. -/
def readItem (h : Heap) : Nat → HeapItem → Option Val
  | 0, _ => none
  | _ + 1, .integer n => some (.int n)
  | _ + 1, .boolean b => some (.bool b)
  | _ + 1, .buffer bs => some (.buf bs)
  | fuel + 1, .arrayRef a =>
    match h.cells.get? a with
    | none => none
    | some items => (readItems h fuel items).map .arr
  | fuel + 1, .structRef a =>
    match h.cells.get? a with
    | none => none
    | some items => (readItems h fuel items).map .strct
termination_by fuel x => (fuel, 0)

/-- Deep read of a cell's element list. -/
def readItems (h : Heap) : Nat → List HeapItem → Option (List Val)
  | _, [] => some []
  | fuel, it :: rest =>
    match readItem h fuel it with
    | none => none
    | some v =>
      match readItems h fuel rest with
      | none => none
      | some vs => some (v :: vs)
termination_by fuel items => (fuel, items.length + 1)

end

mutual

/-- The clone performed by SETITEM on a Struct value (modelled from the
spec, the stack-item sources not being under `src/`; §3 "cloned on
assignment (deep copy)" together with §9 "structural deep copy ... Arrays
retain identity"): Struct elements are cloned recursively into freshly
allocated cells, every other element — Array references included — is kept
as-is.  Fuel bounds the recursion depth; `none` models a clone that does
not terminate. -/
def cloneItem (h : Heap) : Nat → HeapItem → Option (Heap × HeapItem)
  | 0, _ => none
  | fuel + 1, .structRef a =>
    (match h.cells.get? a with
    | none => none
    | some items =>
      match cloneItems h fuel items with
      | none => none
      | some (h2, items2) =>
        some (h2.alloc items2, .structRef h2.cells.length))
  | _ + 1, other => some (h, other)
termination_by fuel x => (fuel, 0)

/-- Clone a cell's element list, threading the heap left to right. -/
def cloneItems (h : Heap) :
    Nat → List HeapItem → Option (Heap × List HeapItem)
  | _, [] => some (h, [])
  | fuel, it :: rest =>
    match cloneItem h fuel it with
    | none => none
    | some (h1, it2) =>
      match cloneItems h1 fuel rest with
      | none => none
      | some (h2, rest2) => some (h2, it2 :: rest2)
termination_by fuel items => (fuel, items.length + 1)

end

mutual

/-- A value containing no Array layer: cloning such a Struct copies
everything. -/
def arrFree : Val → Bool
  | .int _ => true
  | .bool _ => true
  | .buf _ => true
  | .arr _ => false
  | .strct vs => arrFreeList vs

/-- `arrFree` on a list of values. -/
def arrFreeList : List Val → Bool
  | [] => true
  | v :: rest => arrFree v && arrFreeList rest

end

/-- `asBigInteger` on heap items (used for the SETITEM index). -/
def HeapItem.asBigInteger : HeapItem → VM Int
  | .integer n => pure n
  | .boolean b => pure (if b then 1 else 0)
  | .buffer bs => pure (bytesToInt bs)
  | _ => .error .invalidType

/-- `jsGet` on heap items. -/
def jsGetH (args : List HeapItem) (i : Nat) : VM HeapItem :=
  match args.get? i with
  | some v => pure v
  | none => .error .typeError

/-- SETITEM invoke on the heap model (`opcodes.js` lines 1195-1212):
`args[0]` is the value (a Struct value is replaced by its clone before
insertion), `args[1]` the index, `args[2]` the target Array or Struct; an
out-of-range index faults, otherwise the target cell's element `index` is
overwritten in place. -/
def SETITEMheapInvoke (fuel : Nat) (h : Heap) (args : List HeapItem) :
    VM Heap := do
  let arg0 ← jsGetH args 0
  let cloned ←
    match arg0 with
    | .structRef a =>
      match cloneItem h fuel (.structRef a) with
      | none => throw .cloneDepthExceeded
      | some r => pure r
    | it => pure (h, it)
  let h1 := cloned.1
  let newItem := cloned.2
  let index ← toNumber (← (← jsGetH args 1).asBigInteger)
  let a ←
    match ← jsGetH args 2 with
    | .arrayRef a => pure a
    | .structRef a => pure a
    | _ => throw .invalidType
  let items ←
    match h1.cells.get? a with
    | some items => pure items
    | none => throw .typeError
  if index < 0 ∨ index ≥ (items.length : Int) then
    throw .invalidSetItemIndex
  pure (h1.write a (items.set index.toNat newItem))

/-- C6 counterexample to the claim as stated: `s = Struct[a]` where `a` is
the Array at cell 0 holding `Integer 7`; `dest` is the Array at cell 2.
SETITEM stores a clone of `s` at `dest[0]`, but the clone keeps the Array
element by reference (cell 3 holds `[arrayRef 0]`), so mutating `a` — an
element of `s` — from 7 to 8 changes the observable value of `dest[0]`
from `Struct[Array[7]]` to `Struct[Array[8]]`. -/
theorem setitem_struct_clone_counterexample :
    SETITEMheapInvoke 10
        { cells := [[.integer 7], [.arrayRef 0], [.boolean false]] }
        [.structRef 1, .integer 0, .arrayRef 2]
      = .ok { cells :=
          [[.integer 7], [.arrayRef 0], [.structRef 3], [.arrayRef 0]] }
    ∧ readItem
        { cells :=
          [[.integer 7], [.arrayRef 0], [.structRef 3], [.arrayRef 0]] }
        10 (.structRef 3)
      = some (.strct [.arr [.int 7]])
    ∧ readItem
        (Heap.write
          { cells :=
            [[.integer 7], [.arrayRef 0], [.structRef 3], [.arrayRef 0]] }
          0 [.integer 8])
        10 (.structRef 3)
      = some (.strct [.arr [.int 8]])
    ∧ Val.strct [.arr [.int 7]] ≠ Val.strct [.arr [.int 8]] := by
  refine ⟨?_, ?_, ?_, by simp⟩
  · simp [SETITEMheapInvoke, cloneItem, cloneItems, jsGetH, toNumber,
      HeapItem.asBigInteger, Heap.alloc, Heap.write, MAX_ITEM_SIZE]
  · simp [readItem, readItems, Heap.write]
  · simp [readItem, readItems, Heap.write]

/-- Reads that succeed survive any heap change that leaves the cells of
the original heap intact: if every address below the original cell count
has the same content in `h2`, a successful deep read in `h` yields the
same value in `h2`. -/
theorem read_extend : ∀ (fuel : Nat) (h h2 : Heap),
    (∀ a, a < h.cells.length → h2.cells.get? a = h.cells.get? a) →
    (∀ (it : HeapItem) (v : Val), readItem h fuel it = some v →
        readItem h2 fuel it = some v)
    ∧ (∀ (items : List HeapItem) (vs : List Val),
        readItems h fuel items = some vs →
        readItems h2 fuel items = some vs) := by
  intro fuel
  induction fuel with
  | zero =>
    intro h h2 hagree
    refine ⟨fun it v hread => by simp [readItem] at hread,
      fun items vs hread => ?_⟩
    cases items with
    | nil => simpa [readItems] using hread
    | cons it rest => simp [readItems, readItem] at hread
  | succ n ih =>
    intro h h2 hagree
    have hitem : ∀ (it : HeapItem) (v : Val),
        readItem h (n + 1) it = some v → readItem h2 (n + 1) it = some v := by
      intro it v hread
      cases it with
      | integer k => simpa [readItem] using hread
      | boolean b => simpa [readItem] using hread
      | buffer bs => simpa [readItem] using hread
      | arrayRef a =>
        rw [readItem] at hread ⊢
        cases hget : h.cells.get? a with
        | none => rw [hget] at hread; simp at hread
        | some items =>
          rw [hget] at hread
          dsimp only at hread
          have hlt : a < h.cells.length := by
            by_contra hge
            rw [List.get?_eq_none.mpr (by omega)] at hget
            exact Option.noConfusion hget
          rw [hagree a hlt, hget]
          dsimp only
          cases hrs : readItems h n items with
          | none => rw [hrs] at hread; simp at hread
          | some vs =>
            rw [hrs] at hread
            rw [(ih h h2 hagree).2 items vs hrs]
            exact hread
      | structRef a =>
        rw [readItem] at hread ⊢
        cases hget : h.cells.get? a with
        | none => rw [hget] at hread; simp at hread
        | some items =>
          rw [hget] at hread
          dsimp only at hread
          have hlt : a < h.cells.length := by
            by_contra hge
            rw [List.get?_eq_none.mpr (by omega)] at hget
            exact Option.noConfusion hget
          rw [hagree a hlt, hget]
          dsimp only
          cases hrs : readItems h n items with
          | none => rw [hrs] at hread; simp at hread
          | some vs =>
            rw [hrs] at hread
            rw [(ih h h2 hagree).2 items vs hrs]
            exact hread
    refine ⟨hitem, ?_⟩
    intro items
    induction items with
    | nil => intro vs hread; simpa [readItems] using hread
    | cons it rest ihr =>
      intro vs hread
      rw [readItems] at hread ⊢
      cases hit : readItem h (n + 1) it with
      | none => rw [hit] at hread; simp at hread
      | some v =>
        rw [hit] at hread
        dsimp only at hread
        rw [hitem it v hit]
        dsimp only
        cases hrs : readItems h (n + 1) rest with
        | none => rw [hrs] at hread; simp at hread
        | some vs2 =>
          rw [hrs] at hread
          rw [ihr vs2 hrs]
          exact hread

/-- Clone specification: when an item's deep value is readable and
contains no Array layer, the clone succeeds, leaves the original cells
untouched (appending only fresh ones), and the cloned item reads back to
the same value in any heap that agrees with the clone result on the
freshly allocated address range — regardless of the contents of the
original cells. -/
theorem cloneItem_spec : ∀ (fuel : Nat),
    (∀ (h : Heap) (it : HeapItem) (v : Val),
      readItem h fuel it = some v → arrFree v = true →
      ∃ h2 it2, cloneItem h fuel it = some (h2, it2)
        ∧ h.cells.length ≤ h2.cells.length
        ∧ (∀ a, a < h.cells.length → h2.cells.get? a = h.cells.get? a)
        ∧ ∀ h3 : Heap,
            (∀ a, h.cells.length ≤ a → a < h2.cells.length →
              h3.cells.get? a = h2.cells.get? a) →
            readItem h3 fuel it2 = some v)
    ∧ (∀ (h : Heap) (items : List HeapItem) (vs : List Val),
      readItems h fuel items = some vs → arrFreeList vs = true →
      ∃ h2 items2, cloneItems h fuel items = some (h2, items2)
        ∧ h.cells.length ≤ h2.cells.length
        ∧ (∀ a, a < h.cells.length → h2.cells.get? a = h.cells.get? a)
        ∧ ∀ h3 : Heap,
            (∀ a, h.cells.length ≤ a → a < h2.cells.length →
              h3.cells.get? a = h2.cells.get? a) →
            readItems h3 fuel items2 = some vs) := by
  intro fuel
  induction fuel with
  | zero =>
    constructor
    · intro h it v hread
      simp [readItem] at hread
    · intro h items vs hread harrL
      cases items with
      | nil =>
        rw [readItems] at hread
        refine ⟨h, [], by rw [cloneItems], le_refl _, fun a _ => rfl,
          fun h3 _ => ?_⟩
        rw [readItems]
        exact hread
      | cons it rest => simp [readItems, readItem] at hread
  | succ n ih =>
    have hP : ∀ (h : Heap) (it : HeapItem) (v : Val),
        readItem h (n + 1) it = some v → arrFree v = true →
        ∃ h2 it2, cloneItem h (n + 1) it = some (h2, it2)
          ∧ h.cells.length ≤ h2.cells.length
          ∧ (∀ a, a < h.cells.length → h2.cells.get? a = h.cells.get? a)
          ∧ ∀ h3 : Heap,
              (∀ a, h.cells.length ≤ a → a < h2.cells.length →
                h3.cells.get? a = h2.cells.get? a) →
              readItem h3 (n + 1) it2 = some v := by
      intro h it v hread harr
      cases it with
      | integer k =>
        rw [readItem] at hread
        refine ⟨h, .integer k, by simp [cloneItem], le_refl _,
          fun a _ => rfl, fun h3 _ => ?_⟩
        rw [readItem]
        exact hread
      | boolean b =>
        rw [readItem] at hread
        refine ⟨h, .boolean b, by simp [cloneItem], le_refl _,
          fun a _ => rfl, fun h3 _ => ?_⟩
        rw [readItem]
        exact hread
      | buffer bs =>
        rw [readItem] at hread
        refine ⟨h, .buffer bs, by simp [cloneItem], le_refl _,
          fun a _ => rfl, fun h3 _ => ?_⟩
        rw [readItem]
        exact hread
      | arrayRef a =>
        rw [readItem] at hread
        cases hget : h.cells.get? a with
        | none => rw [hget] at hread; simp at hread
        | some items =>
          rw [hget] at hread
          dsimp only at hread
          cases hrs : readItems h n items with
          | none => rw [hrs] at hread; simp at hread
          | some vs =>
            rw [hrs] at hread
            simp only [Option.map_some', Option.some.injEq] at hread
            subst hread
            simp [arrFree] at harr
      | structRef a =>
        rw [readItem] at hread
        cases hget : h.cells.get? a with
        | none => rw [hget] at hread; simp at hread
        | some items =>
          rw [hget] at hread
          dsimp only at hread
          cases hrs : readItems h n items with
          | none => rw [hrs] at hread; simp at hread
          | some vs0 =>
            rw [hrs] at hread
            simp only [Option.map_some', Option.some.injEq] at hread
            subst hread
            rw [arrFree] at harr
            obtain ⟨h2, items2, hclone, hlen, hagree, hprop⟩ :=
              ih.2 h items vs0 hrs harr
            refine ⟨h2.alloc items2, .structRef h2.cells.length, ?_, ?_,
              ?_, ?_⟩
            · rw [cloneItem, hget]
              dsimp only
              rw [hclone]
            · simp only [Heap.alloc, List.length_append, List.length_cons,
                List.length_nil]
              omega
            · intro a2 ha2
              have ha2' : a2 < h2.cells.length := by omega
              rw [Heap.alloc]
              rw [List.get?_append ha2']
              exact hagree a2 ha2
            · intro h3 hagree3
              rw [readItem]
              have hfresh : h3.cells.get? h2.cells.length
                  = some items2 := by
                have := hagree3 h2.cells.length hlen
                  (by simp [Heap.alloc, List.length_append] <;> omega)
                rw [this, Heap.alloc, List.get?_concat_length]
              rw [hfresh]
              dsimp only
              have hrest : readItems h3 n items2 = some vs0 := by
                apply hprop
                intro a2 hlo hhi
                have hhi2 : a2 < (h2.alloc items2).cells.length := by
                  simp [Heap.alloc, List.length_append]
                  omega
                rw [hagree3 a2 hlo hhi2, Heap.alloc,
                  List.get?_append hhi]
              rw [hrest]
              rfl
    refine ⟨hP, ?_⟩
    intro h items
    induction items generalizing h with
    | nil =>
      intro vs hread harrL
      rw [readItems] at hread
      refine ⟨h, [], by rw [cloneItems], le_refl _, fun a _ => rfl,
        fun h3 _ => ?_⟩
      rw [readItems]
      exact hread
    | cons it rest ihr =>
      intro vs hread harrL
      rw [readItems] at hread
      cases hit : readItem h (n + 1) it with
      | none => rw [hit] at hread; simp at hread
      | some v0 =>
        rw [hit] at hread
        dsimp only at hread
        cases hrs : readItems h (n + 1) rest with
        | none => rw [hrs] at hread; simp at hread
        | some vrest =>
          rw [hrs] at hread
          simp only [Option.some.injEq] at hread
          subst hread
          rw [arrFreeList, Bool.and_eq_true] at harrL
          obtain ⟨harr0, harrR⟩ := harrL
          obtain ⟨h1, it2, hcl1, hlen1, hagree1, hprop1⟩ :=
            hP h it v0 hit harr0
          have hrs1 : readItems h1 (n + 1) rest = some vrest :=
            (read_extend (n + 1) h h1 hagree1).2 rest vrest hrs
          obtain ⟨h2, rest2, hcl2, hlen2, hagree2, hprop2⟩ :=
            ihr h1 vrest hrs1 harrR
          refine ⟨h2, it2 :: rest2, ?_, by omega, ?_, ?_⟩
          · rw [cloneItems, hcl1]
            dsimp only
            rw [hcl2]
          · intro a ha
            rw [hagree2 a (by omega), hagree1 a ha]
          · intro h3 hagree3
            rw [readItems]
            have hv0 : readItem h3 (n + 1) it2 = some v0 := by
              apply hprop1
              intro a hlo hhi
              rw [hagree3 a hlo (by omega), hagree2 a hhi]
            have hvrest : readItems h3 (n + 1) rest2 = some vrest := by
              apply hprop2
              intro a hlo hhi
              exact hagree3 a (by omega) hhi
            rw [hv0]
            dsimp only
            rw [hvrest]

/-- C6 (amended): SETITEM with a Struct value stores a clone.  When the
struct's deep value contains no Array layer the clone is fully fresh:
after SETITEM stores it at `dest[i]`, overwriting any pre-existing cell
other than the target cell — in particular the struct `s` itself or any of
its (recursively Struct) elements — leaves both the stored reference and
its deep value unchanged.  For a non-Struct value (an Array reference
included) the element is stored by reference, without cloning: the target
cell receives the popped item itself.  Array elements of a Struct retain
identity through the clone, so mutations through a shared Array element
remain visible (see the counterexample). -/
theorem setitem_struct_clone_semantics
    (fuel : Nat) (h : Heap) (sAddr destAddr i : Nat) (v : Val)
    (destItems : List HeapItem)
    (hdest : h.cells.get? destAddr = some destItems)
    (hi : i < destItems.length)
    (hiMax : i ≤ MAX_ITEM_SIZE)
    (hread : readItem h fuel (.structRef sAddr) = some v)
    (harr : arrFree v = true) :
    (∃ h2 newItem,
      SETITEMheapInvoke fuel h
          [.structRef sAddr, .integer i, .arrayRef destAddr] = .ok h2
      ∧ (h2.cells.get? destAddr).bind (fun items => items.get? i)
          = some newItem
      ∧ readItem h2 fuel newItem = some v
      ∧ (∀ b c, b < h.cells.length → b ≠ destAddr →
          ((h2.write b c).cells.get? destAddr).bind
              (fun items => items.get? i) = some newItem
          ∧ readItem (h2.write b c) fuel newItem = some v))
    ∧ (∀ w : HeapItem, w.isStructRef = false →
        SETITEMheapInvoke fuel h [w, .integer i, .arrayRef destAddr]
          = .ok (h.write destAddr (destItems.set i w))) := by
  have hdlt : destAddr < h.cells.length := by
    by_contra hge
    rw [List.get?_eq_none.mpr (by omega)] at hdest
    exact Option.noConfusion hdest
  have hnum : toNumber ((i : Nat) : Int) = pure (i : Int) := by
    simp only [toNumber, MAX_ITEM_SIZE] at *
    rw [if_pos]
    simp only [Int.natAbs_ofNat]
    simpa [MAX_ITEM_SIZE] using hiMax
  have hnoob : ¬ (((i : Nat) : Int) < 0 ∨
      ((i : Nat) : Int) ≥ (destItems.length : Int)) := by
    push_neg
    constructor <;> omega
  have htoNat : ((i : Nat) : Int).toNat = i := by omega
  constructor
  · obtain ⟨hc, it2, hclone, hlen, hagree, hprop⟩ :=
      (cloneItem_spec fuel).1 h (.structRef sAddr) v hread harr
    have hcdest : hc.cells.get? destAddr = some destItems := by
      rw [hagree destAddr hdlt]
      exact hdest
    have hdlt2 : destAddr < hc.cells.length := by omega
    refine ⟨hc.write destAddr (destItems.set i it2), it2, ?_, ?_, ?_, ?_⟩
    · unfold SETITEMheapInvoke
      simp only [jsGetH, List.get?, vm_bind_ok, vm_pure,
        HeapItem.asBigInteger, hnum, hclone]
      rw [hcdest]
      simp [hnoob, htoNat] <;> omega
    · rw [Heap.write, List.get?_eq_getElem?,
        List.getElem?_set_self hdlt2, Option.some_bind,
        List.get?_eq_getElem?, List.getElem?_set_self hi]
    · apply hprop
      intro a hlo hhi
      rw [Heap.write, List.get?_eq_getElem?, List.get?_eq_getElem?,
        List.getElem?_set_ne (by omega : destAddr ≠ a)]
    · intro b c hb hbne
      constructor
      · rw [Heap.write, Heap.write, List.get?_eq_getElem?,
          List.getElem?_set_ne (by omega : b ≠ destAddr),
          List.getElem?_set_self hdlt2, Option.some_bind,
          List.get?_eq_getElem?, List.getElem?_set_self hi]
      · apply hprop
        intro a hlo hhi
        rw [Heap.write, Heap.write, List.get?_eq_getElem?,
          List.get?_eq_getElem?,
          List.getElem?_set_ne (by omega : b ≠ a),
          List.getElem?_set_ne (by omega : destAddr ≠ a)]
  · intro w hw
    cases w
    case structRef a => simp [HeapItem.isStructRef] at hw
    all_goals
      unfold SETITEMheapInvoke
      simp only [jsGetH, List.get?, vm_bind_ok, vm_pure,
        HeapItem.asBigInteger, hnum]
      rw [hdest]
      simp [hnoob, htoNat] <;> omega

/-- Witness for C6 (amended) at a one-element Struct of `Integer 7` stored
into a one-element Array. -/
theorem setitem_struct_clone_semantics_witness :
    (∃ h2 newItem,
      SETITEMheapInvoke 5 { cells := [[.integer 7], [.boolean false]] }
          [.structRef 0, .integer 0, .arrayRef 1] = .ok h2
      ∧ (h2.cells.get? 1).bind (fun items => items.get? 0) = some newItem
      ∧ readItem h2 5 newItem = some (.strct [.int 7])
      ∧ (∀ b c, b < 2 → b ≠ 1 →
          ((h2.write b c).cells.get? 1).bind (fun items => items.get? 0)
            = some newItem
          ∧ readItem (h2.write b c) 5 newItem = some (.strct [.int 7])))
    ∧ (∀ w : HeapItem, w.isStructRef = false →
        SETITEMheapInvoke 5 { cells := [[.integer 7], [.boolean false]] }
            [w, .integer 0, .arrayRef 1]
          = .ok (Heap.write { cells := [[.integer 7], [.boolean false]] }
              1 ([HeapItem.boolean false].set 0 w))) :=
  setitem_struct_clone_semantics 5
    { cells := [[.integer 7], [.boolean false]] } 0 1 0
    (.strct [.int 7]) [.boolean false] rfl (by decide) (by decide)
    (by simp [readItem, readItems]) (by simp [arrFree, arrFreeList])

end NeoVM
